import Mathlib

/-!
Shallow embedding of the voice-recorder core (src-tauri/src): the model
download pipeline of file_utils.rs and the whisper engine session of
whisper.rs.  External effects (network, disk, the sha2 crate and the
whisper-rs inference library) are abstracted into explicit world
parameters; the filesystem is a partial map from path strings to byte
lists; events emitted through the tauri AppHandle become an accumulated
list of progress snapshots.  f64/f32 progress fields are modelled over ℚ.
-/

namespace VoiceRecorder

/-- Byte contents of a file, one Nat per byte. -/
abbrev Bytes := List Nat

/-- The filesystem: a partial map from path strings to file contents. -/
abbrev FS := String → Option Bytes

/-- Point update of the filesystem (create/overwrite with `some`, delete with `none`). -/
def fsSet (fs : FS) (p : String) (v : Option Bytes) : FS :=
  fun q => if q = p then v else fs q

/-- DownloadProgress snapshot from file_utils.rs (the f64 percentage is modelled over ℚ). -/
structure DownloadProgress where
  bytes_downloaded : Nat
  total_bytes : Nat
  percentage : ℚ
  status : String
deriving DecidableEq, Repr

/-- An HTTP response: status code plus the stream of chunk results, each chunk
either bytes or a transfer error (reqwest bytes_stream items). -/
structure HttpResponse where
  status : Nat
  chunks : List (Except String Bytes)

/-- reqwest StatusCode::is_success: 2xx. -/
def HttpResponse.is_success (r : HttpResponse) : Bool :=
  200 ≤ r.status && r.status < 300

/-- The ambient world a single download_model call runs against: the outcome of
directory creation, the outcome of the HTTP GET (transport error or response),
whether File::create of the staging file succeeds, which chunk writes fail on
disk, whether the final rename succeeds, and the content digest function
(hex::encode of the sha2 Sha256 digest, abstracted). -/
structure DLWorld where
  mkdirResult : Except String Unit
  connect : Except String HttpResponse
  createFileOk : Bool
  writeFails : Nat → Bool
  renameOk : Bool
  hash : Bytes → String

/-- Rust str::to_lowercase modelled on Lean strings: lowercase every char. -/
def rustToLower (s : String) : String :=
  String.mk (s.data.map Char.toLower)

/-- calculate_file_checksum of file_utils.rs: open the file at `path` and
stream its contents through the digest accumulator; the 8 KiB chunked read
loop computes the digest of the whole contents, abstracted as `hash`. -/
def calculate_file_checksum (hash : Bytes → String) (fs : FS) (path : String) :
    Except String String :=
  match fs path with
  | none => .error "Failed to open file"
  | some contents => .ok (hash contents)

/-- Result of one download_model call: the returned value, the filesystem after
return, every emitted DownloadProgress snapshot in order, and the trace of
filesystem states after each mutating filesystem operation. -/
structure DLResult where
  res : Except String Unit
  fs : FS
  events : List DownloadProgress
  trace : List FS

/-- Result of the chunk-streaming while-loop of download_model. -/
structure LoopResult where
  res : Except String Unit
  fs : FS
  downloaded : Nat
  events : List DownloadProgress
  trace : List FS

/-- The per-chunk downloading snapshot of download_model: percentage is
bytes_downloaded / expected_size * 100, or 0 when expected_size is 0. -/
def chunkProgress (downloaded expected : Nat) : DownloadProgress :=
  { bytes_downloaded := downloaded
    total_bytes := expected
    percentage := if expected > 0 then (downloaded : ℚ) / (expected : ℚ) * 100 else 0
    status := "downloading" }

/-- The while-let chunk loop of download_model: each chunk result either aborts
(stream error, or a failing disk write) after removing the staging file, or is
appended to the staging file, the running byte count updated, and a downloading
snapshot emitted.  `i` numbers the writes for the disk-failure oracle. -/
def dlLoop (w : DLWorld) (expected : Nat) (temp : String) :
    List (Except String Bytes) → Nat → FS → Nat → List DownloadProgress → List FS →
    LoopResult
  | [], _, fs, downloaded, evs, tr =>
    { res := .ok (), fs := fs, downloaded := downloaded, events := evs, trace := tr }
  | c :: rest, i, fs, downloaded, evs, tr =>
    match c with
    | .error e =>
      let fs' := fsSet fs temp none
      { res := .error ("Failed to read data chunk: " ++ e ++ ". Download interrupted.")
        fs := fs', downloaded := downloaded, events := evs, trace := tr ++ [fs'] }
    | .ok chunk =>
      if w.writeFails i then
        let fs' := fsSet fs temp none
        { res := .error "Failed to write to disk. Check available disk space."
          fs := fs', downloaded := downloaded, events := evs, trace := tr ++ [fs'] }
      else
        let fs' := fsSet fs temp (some ((fs temp).getD [] ++ chunk))
        let downloaded' := downloaded + chunk.length
        dlLoop w expected temp rest (i + 1) fs' downloaded'
          (evs ++ [chunkProgress downloaded' expected]) (tr ++ [fs'])

/-- The tail of download_model after the chunk loop: emit the validating
snapshot, compare the staging file digest case-insensitively against
`checksum` (mismatch deletes the staging file), rename the staging file onto
target_path (failure deletes the staging file), emit the completed snapshot.
A loop failure is propagated unchanged (the loop already removed the staging
file). -/
def finishDownload (w : DLWorld) (target temp : String) (expected : Nat)
    (checksum : String) (lr : LoopResult) : DLResult :=
  match lr.res with
  | .error e =>
    { res := .error e, fs := lr.fs, events := lr.events, trace := lr.trace }
  | .ok _ =>
    match calculate_file_checksum w.hash lr.fs temp with
    | .error e =>
      { res := .error ("Failed to calculate checksum: " ++ e)
        fs := fsSet lr.fs temp none
        events := lr.events ++ [⟨lr.downloaded, expected, 100, "validating"⟩]
        trace := lr.trace ++ [fsSet lr.fs temp none] }
    | .ok actual =>
      if rustToLower actual ≠ rustToLower checksum then
        { res := .error ("Checksum validation failed. Expected: " ++ checksum ++
            ", Got: " ++ actual ++ ". Please try downloading again.")
          fs := fsSet lr.fs temp none
          events := lr.events ++ [⟨lr.downloaded, expected, 100, "validating"⟩]
          trace := lr.trace ++ [fsSet lr.fs temp none] }
      else
        match lr.fs temp with
        | none =>
          { res := .error "Failed to finalize download"
            fs := fsSet lr.fs temp none
            events := lr.events ++ [⟨lr.downloaded, expected, 100, "validating"⟩]
            trace := lr.trace ++ [fsSet lr.fs temp none] }
        | some v =>
          if w.renameOk then
            { res := .ok ()
              fs := fsSet (fsSet lr.fs temp none) target (some v)
              events := lr.events ++ [⟨lr.downloaded, expected, 100, "validating"⟩,
                ⟨lr.downloaded, expected, 100, "completed"⟩]
              trace := lr.trace ++ [fsSet (fsSet lr.fs temp none) target (some v)] }
          else
            { res := .error "Failed to finalize download"
              fs := fsSet lr.fs temp none
              events := lr.events ++ [⟨lr.downloaded, expected, 100, "validating"⟩]
              trace := lr.trace ++ [fsSet lr.fs temp none] }

/-- download_model of file_utils.rs: ensure the parent directory, emit a
starting snapshot, perform the GET (a transport failure removes the file at
target_path), reject non-success statuses, create the staging file at
target_path ++ ".tmp", emit a zero downloading snapshot, stream chunks into
the staging file, and finish with validation and rename. -/
def download_model (w : DLWorld) (target : String) (expected : Nat)
    (checksum : String) (fs : FS) : DLResult :=
  match w.mkdirResult with
  | .error e =>
    { res := .error ("Failed to create directory: " ++ e), fs := fs, events := [], trace := [] }
  | .ok _ =>
    match w.connect with
    | .error e =>
      { res := .error ("Download request failed: " ++ e ++
          ". Please check your internet connection.")
        fs := fsSet fs target none
        events := [⟨0, expected, 0, "starting"⟩]
        trace := [fsSet fs target none] }
    | .ok resp =>
      if resp.is_success then
        if w.createFileOk then
          finishDownload w target (target ++ ".tmp") expected checksum
            (dlLoop w expected (target ++ ".tmp") resp.chunks 0
              (fsSet fs (target ++ ".tmp") (some [])) 0
              [⟨0, expected, 0, "starting"⟩, ⟨0, expected, 0, "downloading"⟩]
              [fsSet fs (target ++ ".tmp") (some [])])
        else
          { res := .error "Failed to create file. Check disk permissions."
            fs := fs, events := [⟨0, expected, 0, "starting"⟩], trace := [] }
      else
        { res := .error "Download failed with HTTP status. The model file may not be available."
          fs := fs, events := [⟨0, expected, 0, "starting"⟩], trace := [] }

/-! ## Engine session (whisper.rs) -/

/-- ModelVariant of whisper.rs. -/
inductive ModelVariant
  | tiny | base | small | medium | large
deriving DecidableEq, Repr

/-- ModelVariant::to_filename of whisper.rs. -/
def ModelVariant.to_filename : ModelVariant → String
  | .tiny => "ggml-tiny.bin"
  | .base => "ggml-base.bin"
  | .small => "ggml-small.bin"
  | .medium => "ggml-medium.bin"
  | .large => "ggml-large-v3.bin"

/-- TranscriptionProgress of whisper.rs (the f32 progress is modelled over ℚ). -/
structure TranscriptionProgress where
  stage : String
  progress : ℚ
deriving DecidableEq, Repr

/-- WhisperContext of whisper.rs: the loaded whisper-rs context (abstract type
`Ctx`) together with the variant it was loaded as. -/
structure WhisperContext (Ctx : Type) where
  ctx : Ctx
  variant : ModelVariant

/-- The ambient world the engine-session commands run against: path existence,
and the opaque whisper-rs inference capability (context construction, state
creation, running inference over the audio, segment count and segment text
extraction).  `Ctx` and `St` are the opaque context and state types, `Audio`
the sample-sequence type (Vec of f32 in the source). -/
structure WhisperWorld (Ctx St Audio : Type) where
  pathExists : String → Bool
  newCtx : String → Except String Ctx
  createState : Ctx → Except String St
  full : St → Audio → Except String St
  nSegments : St → Except String Nat
  segmentText : St → Nat → Except String String

variable {Ctx St Audio : Type}

/-- WhisperContext::new of whisper.rs: construct the whisper-rs context from
the model path; on failure wrap the error message. -/
def WhisperContext.new (w : WhisperWorld Ctx St Audio) (path : String)
    (variant : ModelVariant) : Except String (WhisperContext Ctx) :=
  match w.newCtx path with
  | .error e => .error ("Failed to load Whisper model: " ++ e)
  | .ok c => .ok ⟨c, variant⟩

/-- Rust str::trim applied to the char list: drop whitespace from both ends. -/
def trimChars (l : List Char) : List Char :=
  ((l.dropWhile Char.isWhitespace).reverse.dropWhile Char.isWhitespace).reverse

/-- Rust String::trim modelled on Lean strings. -/
def rustTrim (s : String) : String :=
  String.mk (trimChars s.data)

/-- The segment-extraction for-loop of WhisperContext::transcribe: for each
index push the segment text and a space onto the accumulator, aborting on a
segment extraction error.  Called with List.range num_segments. -/
def segmentLoop (w : WhisperWorld Ctx St Audio) (st : St) :
    List Nat → String → Except String String
  | [], acc => .ok acc
  | i :: rest, acc =>
    match w.segmentText st i with
    | .error e => .error ("Failed to get segment text: " ++ e)
    | .ok seg => segmentLoop w st rest (acc ++ seg ++ " ")

/-- WhisperContext::transcribe of whisper.rs: emit the staged progress
snapshots around the inference calls, extract all segments into one
space-separated string and return it trimmed.  Returns the result together
with the emitted TranscriptionProgress snapshots in order. -/
def WhisperContext.transcribe (c : WhisperContext Ctx)
    (w : WhisperWorld Ctx St Audio) (audio : Audio) :
    Except String String × List TranscriptionProgress :=
  let evs0 := [⟨"loading_model", 0⟩]
  let evs1 := evs0 ++ [⟨"processing_audio", 33/100⟩]
  match w.createState c.ctx with
  | .error e => (.error ("Failed to create Whisper state: " ++ e), evs1)
  | .ok st0 =>
    match w.full st0 audio with
    | .error e => (.error ("Transcription failed: " ++ e), evs1)
    | .ok st =>
      let evs2 := evs1 ++ [⟨"finalizing", 66/100⟩]
      match w.nSegments st with
      | .error e => (.error ("Failed to get segment count: " ++ e), evs2)
      | .ok n =>
        match segmentLoop w st (List.range n) "" with
        | .error e => (.error e, evs2)
        | .ok result => (.ok (rustTrim result), evs2 ++ [⟨"complete", 1⟩])

/-- The engine-session shared state: the WHISPER_MODEL mutex contents. -/
abbrev EngineState (Ctx : Type) := Option (WhisperContext Ctx)

/-- load_whisper_model of whisper.rs: error if the path does not exist,
otherwise construct a context and on success replace the held instance.
Returns the command result and the state after the call. -/
def load_whisper_model (w : WhisperWorld Ctx St Audio) (path : String)
    (variant : ModelVariant) (s : EngineState Ctx) :
    Except String Unit × EngineState Ctx :=
  if w.pathExists path then
    match WhisperContext.new w path variant with
    | .error e => (.error e, s)
    | .ok c => (.ok (), some c)
  else
    (.error ("Model file not found: \"" ++ path ++ "\""), s)

/-- unload_whisper_model of whisper.rs: clear the held instance. -/
def unload_whisper_model (_s : EngineState Ctx) :
    Except String Unit × EngineState Ctx :=
  (.ok (), none)

/-- transcribe_audio of whisper.rs: with no instance held return the
not-loaded error and emit nothing; otherwise delegate to
WhisperContext::transcribe on the held instance.  The `_variant` argument is
accepted but unused, as in the source.  Returns the result, the emitted
snapshots and the state after the call. -/
def transcribe_audio (w : WhisperWorld Ctx St Audio) (audio : Audio)
    (_variant : ModelVariant) (s : EngineState Ctx) :
    Except String String × List TranscriptionProgress × EngineState Ctx :=
  match s with
  | some c =>
    let (r, evs) := c.transcribe w audio
    (r, evs, some c)
  | none => (.error "No Whisper model loaded", [], none)

/-- get_whisper_model_status of whisper.rs: the variant of the held instance. -/
def get_whisper_model_status (s : EngineState Ctx) :
    Except String (Option ModelVariant) × EngineState Ctx :=
  (.ok (s.map (fun c => c.variant)), s)

/-- The spec wording for the transcription result: the segments concatenated,
each separated by a single space. -/
def sepBySpace : List String → String
  | [] => ""
  | [s] => s
  | s :: rest => s ++ " " ++ sepBySpace rest

/-- The string the segment loop appends: every segment followed by one space. -/
def joinSp (segs : List String) : String :=
  segs.foldr (fun s a => s ++ " " ++ a) ""

/-- A fully failing inference world over trivial opaque types, used to
evaluate the session commands on concrete states. -/
def emptyWorld : WhisperWorld Unit Unit Unit where
  pathExists := fun _ => false
  newCtx := fun _ => .error "nope"
  createState := fun _ => .error "nope"
  full := fun _ _ => .error "nope"
  nSegments := fun _ => .error "nope"
  segmentText := fun _ _ => .error "nope"

/-- A concrete inference world producing the two segments "hello" and
"world". -/
def segWorld : WhisperWorld Unit Unit Unit where
  pathExists := fun _ => true
  newCtx := fun _ => .ok ()
  createState := fun _ => .ok ()
  full := fun _ _ => .ok ()
  nSegments := fun _ => .ok 2
  segmentText := fun _ i => .ok (if i = 0 then "hello" else "world")

/-- Whether the HTTP GET itself failed at the transport level. -/
def transportFailed (w : DLWorld) : Bool :=
  match w.connect with
  | .error _ => true
  | .ok _ => false

/-- Whether the call reached creation of the staging file: directory creation
and the request succeeded, the status was a success, and File::create worked. -/
def stagingCreated (w : DLWorld) : Bool :=
  (match w.mkdirResult with | .ok _ => true | .error _ => false) &&
  (match w.connect with | .ok r => r.is_success | .error _ => false) &&
  w.createFileOk

/-- The empty filesystem. -/
def emptyFS : FS := fun _ => none

/-- A filesystem holding one pre-existing artifact at the target path. -/
def cexFS : FS := fun p => if p = "/m/base.bin" then some [7] else none

/-- A download world whose HTTP request fails at the transport level. -/
def cexWorld : DLWorld :=
  { mkdirResult := .ok (), connect := .error "connection refused"
    createFileOk := true, writeFails := fun _ => false, renameOk := true
    hash := fun _ => "aa" }

/-- A download world delivering one two-byte chunk whose digest is "aa". -/
def okWorld : DLWorld :=
  { mkdirResult := .ok (), connect := .ok ⟨200, [.ok [1, 2]]⟩
    createFileOk := true, writeFails := fun _ => false, renameOk := true
    hash := fun _ => "aa" }

/-- Like okWorld but the digest comes out as "bb", mismatching "AA". -/
def mismatchWorld : DLWorld :=
  { okWorld with hash := fun _ => "bb" }

/-! ## Engine session theorems -/

/-- C5: a load whose path does not exist returns the file-not-found error and
leaves the state untouched; more generally every failing load returns the
pre-call state unchanged. -/
theorem load_failure_preserves_state (w : WhisperWorld Ctx St Audio)
    (path : String) (variant : ModelVariant) (s : EngineState Ctx) :
    (w.pathExists path = false →
      load_whisper_model w path variant s =
        (.error ("Model file not found: \"" ++ path ++ "\""), s)) ∧
    (∀ e, (load_whisper_model w path variant s).1 = .error e →
      (load_whisper_model w path variant s).2 = s) := by
  constructor
  · intro h
    simp [load_whisper_model, h]
  · intro e
    unfold load_whisper_model
    by_cases h : w.pathExists path
    · simp only [h, if_true]
      cases hn : WhisperContext.new w path variant <;> simp
    · simp [h]

/-- Witness for C5 at a concrete state and world. -/
theorem load_failure_preserves_state_witness :
    load_whisper_model emptyWorld "/no/such/file" ModelVariant.base
        (none : EngineState Unit) =
      (.error ("Model file not found: \"" ++ "/no/such/file" ++ "\""), none) :=
  (load_failure_preserves_state emptyWorld "/no/such/file" ModelVariant.base none).1 rfl

/-- C6: unload is idempotent — a second unload applied to the state a first
unload produced is the very same call result, both succeed, and the final
state holds nothing. -/
theorem unload_idempotent (s : EngineState Ctx) :
    unload_whisper_model (unload_whisper_model s).2 = unload_whisper_model s ∧
    (unload_whisper_model s).1 = .ok () ∧
    (unload_whisper_model s).2 = none :=
  ⟨rfl, rfl, rfl⟩

/-- C7: transcribe with nothing loaded returns the not-loaded error, emits no
progress snapshots, and leaves the state empty. -/
theorem transcribe_not_loaded (w : WhisperWorld Ctx St Audio) (audio : Audio)
    (v : ModelVariant) (s : EngineState Ctx) (h : s = none) :
    transcribe_audio w audio v s = (.error "No Whisper model loaded", [], none) := by
  subst h; rfl

/-- Witness for C7 on the empty concrete state. -/
theorem transcribe_not_loaded_witness :
    transcribe_audio emptyWorld () ModelVariant.small (none : EngineState Unit) =
      (.error "No Whisper model loaded", [], none) :=
  transcribe_not_loaded emptyWorld () ModelVariant.small none rfl

/-- C10: the variant argument of transcribe_audio never influences the call:
any two variants give identical results, snapshots and post-states. -/
theorem transcribe_variant_irrelevant (w : WhisperWorld Ctx St Audio)
    (audio : Audio) (v₁ v₂ : ModelVariant) (s : EngineState Ctx) :
    transcribe_audio w audio v₁ s = transcribe_audio w audio v₂ s := rfl

/-- A successful segment loop returns the accumulator followed by every
extracted segment with one trailing space each. -/
theorem segmentLoop_ok (w : WhisperWorld Ctx St Audio) (st : St) (l : List Nat) :
    ∀ acc r : String, segmentLoop w st l acc = .ok r →
    ∃ segs : List String,
      List.Forall₂ (fun i seg => w.segmentText st i = .ok seg) l segs ∧
      r = acc ++ joinSp segs := by
  induction l with
  | nil =>
    intro acc r h
    refine ⟨[], List.Forall₂.nil, ?_⟩
    simp only [segmentLoop] at h
    cases h
    simp [joinSp]
  | cons i rest ih =>
    intro acc r h
    simp only [segmentLoop] at h
    cases hseg : w.segmentText st i with
    | error e => rw [hseg] at h; cases h
    | ok seg =>
      rw [hseg] at h
      obtain ⟨segs, hf, hr⟩ := ih _ _ h
      refine ⟨seg :: segs, List.Forall₂.cons hseg hf, ?_⟩
      rw [hr]
      simp [joinSp, String.append_assoc]

/-- Appending one space to a char list does not change its trim. -/
theorem trimChars_append_space (m : List Char) :
    trimChars (m ++ [' ']) = trimChars m := by
  unfold trimChars
  rw [List.dropWhile_append]
  by_cases h : (m.dropWhile Char.isWhitespace).isEmpty
  · rw [if_pos h]
    rw [List.isEmpty_iff] at h
    rw [h]
    simp
  · rw [if_neg h]
    rw [List.reverse_append]
    simp only [List.reverse_cons, List.reverse_nil, List.nil_append, List.singleton_append]
    rw [List.dropWhile_cons_of_pos (by decide : Char.isWhitespace ' ' = true)]

/-- Appending one space to a string does not change its trim. -/
theorem rustTrim_append_space (s : String) : rustTrim (s ++ " ") = rustTrim s := by
  unfold rustTrim
  have hd : (s ++ " ").data = s.data ++ [' '] := rfl
  rw [hd, trimChars_append_space]

/-- On a nonempty list the loop join is the single-space join plus one
trailing space. -/
theorem joinSp_eq_sepBySpace_append (segs : List String) (h : segs ≠ []) :
    joinSp segs = sepBySpace segs ++ " " := by
  induction segs with
  | nil => cases h rfl
  | cons s rest ih =>
    cases rest with
    | nil =>
      show (s ++ " ") ++ "" = s ++ " "
      rw [String.append_empty]
    | cons t rest2 =>
      show (s ++ " ") ++ joinSp (t :: rest2) = (s ++ " " ++ sepBySpace (t :: rest2)) ++ " "
      rw [ih (by simp), ← String.append_assoc]

/-- Trimmed, the loop join and the spec's single-space join coincide. -/
theorem rustTrim_joinSp (segs : List String) :
    rustTrim (joinSp segs) = rustTrim (sepBySpace segs) := by
  cases hs : segs with
  | nil => rfl
  | cons s rest =>
    rw [joinSp_eq_sepBySpace_append (s :: rest) (by simp), rustTrim_append_space]

/-- C8: every successful transcribe call returns exactly the segments the
inference capability produced, concatenated with a single separating space
and trimmed of leading and trailing whitespace. -/
theorem transcribe_result_is_sepBySpace (w : WhisperWorld Ctx St Audio)
    (audio : Audio) (v : ModelVariant) (s : EngineState Ctx) (r : String)
    (evs : List TranscriptionProgress) (s2 : EngineState Ctx)
    (h : transcribe_audio w audio v s = (.ok r, evs, s2)) :
    ∃ (c : WhisperContext Ctx) (st0 st : St) (n : Nat) (segs : List String),
      s = some c ∧
      w.createState c.ctx = .ok st0 ∧
      w.full st0 audio = .ok st ∧
      w.nSegments st = .ok n ∧
      List.Forall₂ (fun i seg => w.segmentText st i = .ok seg) (List.range n) segs ∧
      r = rustTrim (sepBySpace segs) := by
  cases s with
  | none => simp [transcribe_audio] at h
  | some c =>
    rcases htc : c.transcribe w audio with ⟨r0, evs0⟩
    simp only [transcribe_audio, htc, Prod.mk.injEq] at h
    obtain ⟨hr0, hevs, hs2⟩ := h
    subst hr0
    unfold WhisperContext.transcribe at htc
    cases h1 : w.createState c.ctx with
    | error e => simp [h1] at htc
    | ok st0 =>
      simp only [h1] at htc
      cases h2 : w.full st0 audio with
      | error e => simp [h2] at htc
      | ok st =>
        simp only [h2] at htc
        cases h3 : w.nSegments st with
        | error e => simp [h3] at htc
        | ok n =>
          simp only [h3] at htc
          cases h4 : segmentLoop w st (List.range n) "" with
          | error e => simp [h4] at htc
          | ok result =>
            simp only [h4, Prod.mk.injEq, Except.ok.injEq] at htc
            obtain ⟨hres_eq, hevs0⟩ := htc
            obtain ⟨segs, hf, hres⟩ := segmentLoop_ok w st (List.range n) "" result h4
            refine ⟨c, st0, st, n, segs, rfl, h1, h2, h3, hf, ?_⟩
            rw [← hres_eq, hres, String.empty_append, rustTrim_joinSp]

/-- Witness for C8 on a concrete successful transcription. -/
theorem transcribe_result_is_sepBySpace_witness :
    ∃ (c : WhisperContext Unit) (st0 st : Unit) (n : Nat) (segs : List String),
      (some ⟨(), ModelVariant.base⟩ : EngineState Unit) = some c ∧
      segWorld.createState c.ctx = .ok st0 ∧
      segWorld.full st0 () = .ok st ∧
      segWorld.nSegments st = .ok n ∧
      List.Forall₂ (fun i seg => segWorld.segmentText st i = .ok seg)
        (List.range n) segs ∧
      "hello world" = rustTrim (sepBySpace segs) :=
  transcribe_result_is_sepBySpace segWorld () ModelVariant.base
    (some ⟨(), ModelVariant.base⟩) "hello world"
    [⟨"loading_model", 0⟩, ⟨"processing_audio", 33/100⟩,
     ⟨"finalizing", 66/100⟩, ⟨"complete", 1⟩]
    (some ⟨(), ModelVariant.base⟩) rfl

/-! ## Download pipeline theorems -/

/-- The staging path differs from the target path. -/
theorem temp_ne_target (target : String) : target ++ ".tmp" ≠ target := by
  intro h
  have hl := congrArg String.length h
  rw [String.length_append] at hl
  have h4 : (".tmp" : String).length = 4 := rfl
  rw [h4] at hl
  omega

/-- The chunk loop never touches any path other than the staging path. -/
theorem dlLoop_fs_ne_temp (w : DLWorld) (expected : Nat) (temp : String)
    (chunks : List (Except String Bytes)) :
    ∀ (i : Nat) (fs : FS) (d : Nat) (evs : List DownloadProgress) (tr : List FS)
      (p : String), p ≠ temp →
      (dlLoop w expected temp chunks i fs d evs tr).fs p = fs p := by
  induction chunks with
  | nil => intro i fs d evs tr p hp; rfl
  | cons c rest ih =>
    intro i fs d evs tr p hp
    cases c with
    | error e => simp [dlLoop, fsSet, hp]
    | ok chunk =>
      by_cases hw : w.writeFails i
      · simp [dlLoop, hw, fsSet, hp]
      · simp only [dlLoop, hw, Bool.false_eq_true, if_false]
        rw [ih _ _ _ _ _ _ hp]
        simp [fsSet, hp]

/-- Every filesystem state the chunk loop appends to the trace agrees with the
loop's input filesystem away from the staging path. -/
theorem dlLoop_trace_mem (w : DLWorld) (expected : Nat) (temp : String)
    (chunks : List (Except String Bytes)) :
    ∀ (i : Nat) (fs : FS) (d : Nat) (evs : List DownloadProgress) (tr : List FS)
      (g : FS), g ∈ (dlLoop w expected temp chunks i fs d evs tr).trace →
      g ∈ tr ∨ ∀ p, p ≠ temp → g p = fs p := by
  induction chunks with
  | nil => intro i fs d evs tr g hg; exact Or.inl hg
  | cons c rest ih =>
    intro i fs d evs tr g hg
    cases c with
    | error e =>
      simp only [dlLoop, List.mem_append, List.mem_singleton] at hg
      rcases hg with hg | hg
      · exact Or.inl hg
      · subst hg; exact Or.inr (fun p hp => by simp [fsSet, hp])
    | ok chunk =>
      by_cases hw : w.writeFails i
      · simp only [dlLoop, hw, if_true] at hg
        simp only [List.mem_append, List.mem_singleton] at hg
        rcases hg with hg | hg
        · exact Or.inl hg
        · subst hg; exact Or.inr (fun p hp => by simp [fsSet, hp])
      · simp only [dlLoop, hw, Bool.false_eq_true, if_false] at hg
        rcases ih _ _ _ _ _ _ hg with hg | hg
        · rcases List.mem_append.mp hg with hg | hg
          · exact Or.inl hg
          · rw [List.mem_singleton] at hg
            subst hg
            exact Or.inr (fun p hp => by simp [fsSet, hp])
        · refine Or.inr (fun p hp => ?_)
          rw [hg p hp]
          simp [fsSet, hp]

/-- If the chunk loop fails, the staging path is removed. -/
theorem dlLoop_error_temp (w : DLWorld) (expected : Nat) (temp : String)
    (chunks : List (Except String Bytes)) :
    ∀ (i : Nat) (fs : FS) (d : Nat) (evs : List DownloadProgress) (tr : List FS)
      (e : String), (dlLoop w expected temp chunks i fs d evs tr).res = .error e →
      (dlLoop w expected temp chunks i fs d evs tr).fs temp = none := by
  induction chunks with
  | nil => intro i fs d evs tr e h; cases h
  | cons c rest ih =>
    intro i fs d evs tr e h
    cases c with
    | error e2 => simp [dlLoop, fsSet]
    | ok chunk =>
      by_cases hw : w.writeFails i
      · simp [dlLoop, hw, fsSet]
      · simp only [dlLoop, hw, Bool.false_eq_true, if_false] at h ⊢
        exact ih _ _ _ _ _ _ h

/-- Every snapshot the chunk loop emits beyond its input list is a per-chunk
downloading snapshot. -/
theorem dlLoop_events_mem (w : DLWorld) (expected : Nat) (temp : String)
    (chunks : List (Except String Bytes)) :
    ∀ (i : Nat) (fs : FS) (d : Nat) (evs : List DownloadProgress) (tr : List FS)
      (q : DownloadProgress), q ∈ (dlLoop w expected temp chunks i fs d evs tr).events →
      q ∈ evs ∨ ∃ d2, q = chunkProgress d2 expected := by
  induction chunks with
  | nil => intro i fs d evs tr q hq; exact Or.inl hq
  | cons c rest ih =>
    intro i fs d evs tr q hq
    cases c with
    | error e => exact Or.inl hq
    | ok chunk =>
      by_cases hw : w.writeFails i
      · simp only [dlLoop, hw, if_true] at hq
        exact Or.inl hq
      · simp only [dlLoop, hw, Bool.false_eq_true, if_false] at hq
        rcases ih _ _ _ _ _ _ hq with hq | hq
        · rcases List.mem_append.mp hq with hq | hq
          · exact Or.inl hq
          · rw [List.mem_singleton] at hq
            exact Or.inr ⟨d + chunk.length, hq⟩
        · exact Or.inr hq

/-- A successful finish pins down the final filesystem: the staging file held
contents whose digest matches the expected checksum case-insensitively, the
staging entry is removed, and the target receives those contents. -/
theorem finishDownload_ok (w : DLWorld) (target temp : String) (expected : Nat)
    (checksum : String) (lr : LoopResult)
    (h : (finishDownload w target temp expected checksum lr).res = .ok ()) :
    ∃ v, lr.fs temp = some v ∧ rustToLower (w.hash v) = rustToLower checksum ∧
      (finishDownload w target temp expected checksum lr).fs =
        fsSet (fsSet lr.fs temp none) target (some v) := by
  obtain ⟨lres, lfs, ld, levs, ltr⟩ := lr
  cases lres with
  | error e => exact Except.noConfusion h
  | ok u =>
    simp only [finishDownload] at h
    cases hck : calculate_file_checksum w.hash lfs temp with
    | error e => simp only [hck] at h; exact Except.noConfusion h
    | ok actual =>
      simp only [hck] at h
      by_cases hne : rustToLower actual ≠ rustToLower checksum
      · simp only [if_pos hne] at h; exact Except.noConfusion h
      · simp only [if_neg hne] at h
        cases hfs : lfs temp with
        | none => simp only [hfs] at h; exact Except.noConfusion h
        | some v =>
          simp only [hfs] at h
          by_cases hrn : w.renameOk
          · refine ⟨v, hfs, ?_, ?_⟩
            · have hhash : w.hash v = actual := by
                simp only [calculate_file_checksum, hfs, Except.ok.injEq] at hck
                exact hck
              rw [hhash]
              exact not_ne_iff.mp hne
            · simp only [finishDownload, hck, if_neg hne, hfs, if_pos hrn]
          · simp only [if_neg hrn] at h
            exact Except.noConfusion h

/-- A failing finish leaves the target entry as the loop left it and the
staging entry either removed or as the loop left it. -/
theorem finishDownload_error (w : DLWorld) (target temp : String) (expected : Nat)
    (checksum : String) (lr : LoopResult) (hne : temp ≠ target) (e : String)
    (h : (finishDownload w target temp expected checksum lr).res = .error e) :
    (finishDownload w target temp expected checksum lr).fs target = lr.fs target ∧
    ((finishDownload w target temp expected checksum lr).fs temp = none ∨
      (finishDownload w target temp expected checksum lr).fs temp = lr.fs temp) := by
  obtain ⟨lres, lfs, ld, levs, ltr⟩ := lr
  cases lres with
  | error e2 => exact ⟨rfl, Or.inr rfl⟩
  | ok u =>
    cases hck : calculate_file_checksum w.hash lfs temp with
    | error e2 =>
      simp only [finishDownload, hck]
      exact ⟨by simp [fsSet, Ne.symm hne], Or.inl (by simp [fsSet])⟩
    | ok actual =>
      by_cases hm : rustToLower actual ≠ rustToLower checksum
      · simp only [finishDownload, hck, if_pos hm]
        exact ⟨by simp [fsSet, Ne.symm hne], Or.inl (by simp [fsSet])⟩
      · cases hfs : lfs temp with
        | none =>
          simp only [finishDownload, hck, if_neg hm, hfs]
          exact ⟨by simp [fsSet, Ne.symm hne], Or.inl (by simp [fsSet])⟩
        | some v =>
          by_cases hrn : w.renameOk
          · simp only [finishDownload, hck, if_neg hm, hfs, if_pos hrn] at h
            exact Except.noConfusion h
          · simp only [finishDownload, hck, if_neg hm, hfs, if_neg hrn]
            exact ⟨by simp [fsSet, Ne.symm hne], Or.inl (by simp [fsSet])⟩

/-- If the finish fails after a successful loop, the staging entry is
removed. -/
theorem finishDownload_error_temp (w : DLWorld) (target temp : String)
    (expected : Nat) (checksum : String) (lr : LoopResult) (hres : lr.res = .ok ())
    (e : String) (h : (finishDownload w target temp expected checksum lr).res = .error e) :
    (finishDownload w target temp expected checksum lr).fs temp = none := by
  obtain ⟨lres, lfs, ld, levs, ltr⟩ := lr
  cases lres with
  | error e2 => exact Except.noConfusion hres
  | ok u =>
    cases hck : calculate_file_checksum w.hash lfs temp with
    | error e2 =>
      simp only [finishDownload, hck]
      simp [fsSet]
    | ok actual =>
      by_cases hm : rustToLower actual ≠ rustToLower checksum
      · simp only [finishDownload, hck, if_pos hm]
        simp [fsSet]
      · cases hfs : lfs temp with
        | none =>
          simp only [finishDownload, hck, if_neg hm, hfs]
          simp [fsSet]
        | some v =>
          by_cases hrn : w.renameOk
          · simp only [finishDownload, hck, if_neg hm, hfs, if_pos hrn] at h
            exact Except.noConfusion h
          · simp only [finishDownload, hck, if_neg hm, hfs, if_neg hrn]
            simp [fsSet]

/-- Every snapshot the finish stage emits beyond the loop's list is a
validating or completed snapshot. -/
theorem finishDownload_events (w : DLWorld) (target temp : String) (expected : Nat)
    (checksum : String) (lr : LoopResult) (q : DownloadProgress)
    (hq : q ∈ (finishDownload w target temp expected checksum lr).events) :
    q ∈ lr.events ∨ q.status = "validating" ∨ q.status = "completed" := by
  obtain ⟨lres, lfs, ld, levs, ltr⟩ := lr
  cases lres with
  | error e => exact Or.inl hq
  | ok u =>
    cases hck : calculate_file_checksum w.hash lfs temp with
    | error e =>
      simp only [finishDownload, hck] at hq
      rcases List.mem_append.mp hq with hq | hq
      · exact Or.inl hq
      · rw [List.mem_singleton] at hq; subst hq; exact Or.inr (Or.inl rfl)
    | ok actual =>
      by_cases hm : rustToLower actual ≠ rustToLower checksum
      · simp only [finishDownload, hck, if_pos hm] at hq
        rcases List.mem_append.mp hq with hq | hq
        · exact Or.inl hq
        · rw [List.mem_singleton] at hq; subst hq; exact Or.inr (Or.inl rfl)
      · cases hfs : lfs temp with
        | none =>
          simp only [finishDownload, hck, if_neg hm, hfs] at hq
          rcases List.mem_append.mp hq with hq | hq
          · exact Or.inl hq
          · rw [List.mem_singleton] at hq; subst hq; exact Or.inr (Or.inl rfl)
        | some v =>
          by_cases hrn : w.renameOk
          · simp only [finishDownload, hck, if_neg hm, hfs, if_pos hrn] at hq
            rcases List.mem_append.mp hq with hq | hq
            · exact Or.inl hq
            · rw [List.mem_cons, List.mem_singleton] at hq
              rcases hq with hq | hq
              · subst hq; exact Or.inr (Or.inl rfl)
              · subst hq; exact Or.inr (Or.inr rfl)
          · simp only [finishDownload, hck, if_neg hm, hfs, if_neg hrn] at hq
            rcases List.mem_append.mp hq with hq | hq
            · exact Or.inl hq
            · rw [List.mem_singleton] at hq; subst hq; exact Or.inr (Or.inl rfl)

/-- Every filesystem state the finish stage appends to the trace is either the
loop's filesystem with the staging entry removed, or (only when the digest
matched) the target overwritten with the staging contents. -/
theorem finishDownload_trace (w : DLWorld) (target temp : String) (expected : Nat)
    (checksum : String) (lr : LoopResult) (g : FS)
    (hg : g ∈ (finishDownload w target temp expected checksum lr).trace) :
    g ∈ lr.trace ∨ g = fsSet lr.fs temp none ∨
      ∃ v, lr.fs temp = some v ∧ rustToLower (w.hash v) = rustToLower checksum ∧
        g = fsSet (fsSet lr.fs temp none) target (some v) := by
  obtain ⟨lres, lfs, ld, levs, ltr⟩ := lr
  cases lres with
  | error e => exact Or.inl hg
  | ok u =>
    cases hck : calculate_file_checksum w.hash lfs temp with
    | error e =>
      simp only [finishDownload, hck] at hg
      rcases List.mem_append.mp hg with hg | hg
      · exact Or.inl hg
      · rw [List.mem_singleton] at hg; exact Or.inr (Or.inl hg)
    | ok actual =>
      by_cases hm : rustToLower actual ≠ rustToLower checksum
      · simp only [finishDownload, hck, if_pos hm] at hg
        rcases List.mem_append.mp hg with hg | hg
        · exact Or.inl hg
        · rw [List.mem_singleton] at hg; exact Or.inr (Or.inl hg)
      · cases hfs : lfs temp with
        | none =>
          simp only [finishDownload, hck, if_neg hm, hfs] at hg
          rcases List.mem_append.mp hg with hg | hg
          · exact Or.inl hg
          · rw [List.mem_singleton] at hg; exact Or.inr (Or.inl hg)
        | some v =>
          by_cases hrn : w.renameOk
          · simp only [finishDownload, hck, if_neg hm, hfs, if_pos hrn] at hg
            rcases List.mem_append.mp hg with hg | hg
            · exact Or.inl hg
            · rw [List.mem_singleton] at hg
              refine Or.inr (Or.inr ⟨v, hfs, ?_, hg⟩)
              have hhash : w.hash v = actual := by
                simp only [calculate_file_checksum, hfs, Except.ok.injEq] at hck
                exact hck
              rw [hhash]
              exact not_ne_iff.mp hm
          · simp only [finishDownload, hck, if_neg hm, hfs, if_neg hrn] at hg
            rcases List.mem_append.mp hg with hg | hg
            · exact Or.inl hg
            · rw [List.mem_singleton] at hg; exact Or.inr (Or.inl hg)

/-- Branch analysis of download_model: exactly one of the five control paths
is taken, with the corresponding result. -/
theorem download_model_cases (w : DLWorld) (target : String) (expected : Nat)
    (checksum : String) (fs : FS) :
    (∃ e, w.mkdirResult = .error e ∧
      download_model w target expected checksum fs =
        { res := .error ("Failed to create directory: " ++ e), fs := fs
          events := [], trace := [] }) ∨
    (∃ e, w.connect = .error e ∧
      download_model w target expected checksum fs =
        { res := .error ("Download request failed: " ++ e ++
            ". Please check your internet connection.")
          fs := fsSet fs target none
          events := [⟨0, expected, 0, "starting"⟩]
          trace := [fsSet fs target none] }) ∨
    (∃ resp, w.connect = .ok resp ∧ resp.is_success = false ∧
      download_model w target expected checksum fs =
        { res := .error "Download failed with HTTP status. The model file may not be available."
          fs := fs, events := [⟨0, expected, 0, "starting"⟩], trace := [] }) ∨
    (∃ resp, w.connect = .ok resp ∧ resp.is_success = true ∧ w.createFileOk = false ∧
      download_model w target expected checksum fs =
        { res := .error "Failed to create file. Check disk permissions."
          fs := fs, events := [⟨0, expected, 0, "starting"⟩], trace := [] }) ∨
    (∃ resp, w.connect = .ok resp ∧ resp.is_success = true ∧ w.createFileOk = true ∧
      download_model w target expected checksum fs =
        finishDownload w target (target ++ ".tmp") expected checksum
          (dlLoop w expected (target ++ ".tmp") resp.chunks 0
            (fsSet fs (target ++ ".tmp") (some [])) 0
            [⟨0, expected, 0, "starting"⟩, ⟨0, expected, 0, "downloading"⟩]
            [fsSet fs (target ++ ".tmp") (some [])])) := by
  unfold download_model
  cases hm : w.mkdirResult with
  | error e => exact Or.inl ⟨e, rfl, rfl⟩
  | ok u =>
    cases hc : w.connect with
    | error e => exact Or.inr (Or.inl ⟨e, rfl, rfl⟩)
    | ok resp =>
      by_cases hs : resp.is_success
      · by_cases hcr : w.createFileOk
        · refine Or.inr (Or.inr (Or.inr (Or.inr ⟨resp, rfl, hs, hcr, ?_⟩)))
          simp only [if_pos hs, if_pos hcr]
        · refine Or.inr (Or.inr (Or.inr (Or.inl ⟨resp, rfl, hs, by simpa using hcr, ?_⟩)))
          simp only [if_pos hs, if_neg hcr]
      · refine Or.inr (Or.inr (Or.inl ⟨resp, rfl, by simpa using hs, ?_⟩))
        simp only [if_neg hs]

/-- C1: a successful download leaves at the target path a file whose digest
equals the expected checksum up to case. -/
theorem download_success_checksum (w : DLWorld) (target : String) (expected : Nat)
    (checksum : String) (fs : FS)
    (h : (download_model w target expected checksum fs).res = .ok ()) :
    ∃ v, (download_model w target expected checksum fs).fs target = some v ∧
      rustToLower (w.hash v) = rustToLower checksum := by
  rcases download_model_cases w target expected checksum fs with
    ⟨e, hm, hEq⟩ | ⟨e, hc, hEq⟩ | ⟨resp, hc, hs, hEq⟩ | ⟨resp, hc, hs, hcr, hEq⟩ |
    ⟨resp, hc, hs, hcr, hEq⟩
  · rw [hEq] at h; exact Except.noConfusion h
  · rw [hEq] at h; exact Except.noConfusion h
  · rw [hEq] at h; exact Except.noConfusion h
  · rw [hEq] at h; exact Except.noConfusion h
  · rw [hEq] at h ⊢
    obtain ⟨v, hv, hhash, hfs⟩ := finishDownload_ok _ _ _ _ _ _ h
    refine ⟨v, ?_, hhash⟩
    rw [hfs]
    simp [fsSet]

/-- Witness for C1 on a concrete successful download with an uppercase
expected checksum. -/
theorem download_success_checksum_witness :
    ∃ v, (download_model okWorld "/m/base.bin" 2 "AA" emptyFS).fs "/m/base.bin" = some v ∧
      rustToLower (okWorld.hash v) = rustToLower "AA" :=
  download_success_checksum okWorld "/m/base.bin" 2 "AA" emptyFS rfl

/-- On the staged path, any failure leaves the staging entry removed and the
target entry as it was before the call. -/
theorem staged_failure_cleanup (w : DLWorld) (target : String) (expected : Nat)
    (checksum : String) (fs : FS) (lr : LoopResult) (e : String)
    (hfs1 : ∀ p, p ≠ target ++ ".tmp" →
      lr.fs p = fsSet fs (target ++ ".tmp") (some []) p)
    (hloopE : ∀ e2, lr.res = .error e2 → lr.fs (target ++ ".tmp") = none)
    (h : (finishDownload w target (target ++ ".tmp") expected checksum lr).res = .error e) :
    (finishDownload w target (target ++ ".tmp") expected checksum lr).fs
        (target ++ ".tmp") = none ∧
    (finishDownload w target (target ++ ".tmp") expected checksum lr).fs
        target = fs target := by
  have htgt2 : lr.fs target = fs target := by
    rw [hfs1 target (Ne.symm (temp_ne_target target))]
    simp [fsSet, Ne.symm (temp_ne_target target)]
  cases hres : lr.res with
  | error e2 =>
    obtain ⟨lres, lfs, ld, levs, ltr⟩ := lr
    cases lres with
    | error e3 =>
      exact ⟨hloopE e3 rfl, htgt2⟩
    | ok u => exact Except.noConfusion hres
  | ok u =>
    constructor
    · cases u
      exact finishDownload_error_temp w target (target ++ ".tmp") expected checksum
        lr hres e h
    · rw [(finishDownload_error w target (target ++ ".tmp") expected checksum lr
        (temp_ne_target target) e h).1]
      exact htgt2

/-- C2 (amended): any failing download removes the staging entry whenever the
call reached staging creation, otherwise leaves it as it was; the target entry
is unchanged except that a transport-level failure deletes it. -/
theorem download_failure_cleanup (w : DLWorld) (target : String) (expected : Nat)
    (checksum : String) (fs : FS) (e : String)
    (h : (download_model w target expected checksum fs).res = .error e) :
    ((download_model w target expected checksum fs).fs (target ++ ".tmp") = none ∨
      (download_model w target expected checksum fs).fs (target ++ ".tmp") =
        fs (target ++ ".tmp")) ∧
    ((download_model w target expected checksum fs).fs target = fs target ∨
      (transportFailed w = true ∧
        (download_model w target expected checksum fs).fs target = none)) ∧
    (stagingCreated w = true →
      (download_model w target expected checksum fs).fs (target ++ ".tmp") = none) := by
  rcases download_model_cases w target expected checksum fs with
    ⟨e2, hm, hEq⟩ | ⟨e2, hc, hEq⟩ | ⟨resp, hc, hs, hEq⟩ | ⟨resp, hc, hs, hcr, hEq⟩ |
    ⟨resp, hc, hs, hcr, hEq⟩
  · rw [hEq]
    exact ⟨Or.inr rfl, Or.inl rfl, fun hsc => by simp [stagingCreated, hm] at hsc⟩
  · rw [hEq]
    refine ⟨Or.inr (by simp [fsSet, temp_ne_target target]),
      Or.inr ⟨by simp [transportFailed, hc], by simp [fsSet]⟩,
      fun hsc => by simp [stagingCreated, hc] at hsc⟩
  · rw [hEq]
    exact ⟨Or.inr rfl, Or.inl rfl, fun hsc => by simp [stagingCreated, hc, hs] at hsc⟩
  · rw [hEq]
    exact ⟨Or.inr rfl, Or.inl rfl, fun hsc => by simp [stagingCreated, hcr] at hsc⟩
  · rw [hEq] at h ⊢
    have hstate := staged_failure_cleanup w target expected checksum fs _ e
      (fun p hp => dlLoop_fs_ne_temp w expected (target ++ ".tmp") resp.chunks 0
        (fsSet fs (target ++ ".tmp") (some [])) 0 _ _ p hp)
      (fun e2 he2 => dlLoop_error_temp w expected (target ++ ".tmp") resp.chunks 0
        (fsSet fs (target ++ ".tmp") (some [])) 0 _ _ e2 he2)
      h
    exact ⟨Or.inl hstate.1, Or.inl hstate.2, fun _ => hstate.1⟩

/-- Counterexample to C2 as stated: with a pre-existing artifact at the target
path, a transport-level failure returns an error yet deletes the target file,
so the target is not unchanged by the failed call. -/
theorem download_failure_changes_target :
    (∃ e, (download_model cexWorld "/m/base.bin" 1000 "aa" cexFS).res = .error e) ∧
    cexFS "/m/base.bin" = some [7] ∧
    (download_model cexWorld "/m/base.bin" 1000 "aa" cexFS).fs "/m/base.bin" = none ∧
    ¬((download_model cexWorld "/m/base.bin" 1000 "aa" cexFS).fs "/m/base.bin" =
        cexFS "/m/base.bin") :=
  ⟨⟨_, rfl⟩, rfl, rfl, by decide⟩

/-- Witness for C2 (amended) on a concrete checksum-mismatch failure. -/
theorem download_failure_cleanup_witness :
    ((download_model mismatchWorld "/m/base.bin" 2 "AA" emptyFS).fs
        ("/m/base.bin" ++ ".tmp") = none ∨
      (download_model mismatchWorld "/m/base.bin" 2 "AA" emptyFS).fs
        ("/m/base.bin" ++ ".tmp") = emptyFS ("/m/base.bin" ++ ".tmp")) ∧
    ((download_model mismatchWorld "/m/base.bin" 2 "AA" emptyFS).fs "/m/base.bin" =
        emptyFS "/m/base.bin" ∨
      (transportFailed mismatchWorld = true ∧
        (download_model mismatchWorld "/m/base.bin" 2 "AA" emptyFS).fs "/m/base.bin" =
          none)) ∧
    (stagingCreated mismatchWorld = true →
      (download_model mismatchWorld "/m/base.bin" 2 "AA" emptyFS).fs
        ("/m/base.bin" ++ ".tmp") = none) :=
  download_failure_cleanup mismatchWorld "/m/base.bin" 2 "AA" emptyFS _ rfl

/-- On the staged path, every recorded filesystem state keeps all other paths
untouched and the target absent, unchanged, or verified. -/
theorem staged_trace_inv (w : DLWorld) (target : String) (expected : Nat)
    (checksum : String) (fs : FS) (lr : LoopResult) (g : FS)
    (hfs1 : ∀ p, p ≠ target ++ ".tmp" →
      lr.fs p = fsSet fs (target ++ ".tmp") (some []) p)
    (htr : ∀ g2 ∈ lr.trace, g2 ∈ [fsSet fs (target ++ ".tmp") (some [])] ∨
      ∀ p, p ≠ target ++ ".tmp" → g2 p = fsSet fs (target ++ ".tmp") (some []) p)
    (hg : g ∈ (finishDownload w target (target ++ ".tmp") expected checksum lr).trace) :
    (∀ p, p ≠ target → p ≠ target ++ ".tmp" → g p = fs p) ∧
    (g target = none ∨ g target = fs target ∨
      ∃ v, g target = some v ∧ rustToLower (w.hash v) = rustToLower checksum) := by
  rcases finishDownload_trace _ _ _ _ _ _ _ hg with hg | hg | ⟨v, hv, hhash, hg⟩
  · rcases htr g hg with hgm | hgp
    · rw [List.mem_singleton] at hgm
      subst hgm
      constructor
      · intro p hp hpt
        simp [fsSet, hpt]
      · exact Or.inr (Or.inl (by simp [fsSet, Ne.symm (temp_ne_target target)]))
    · constructor
      · intro p hp hpt
        rw [hgp p hpt]
        simp [fsSet, hpt]
      · refine Or.inr (Or.inl ?_)
        rw [hgp target (Ne.symm (temp_ne_target target))]
        simp [fsSet, Ne.symm (temp_ne_target target)]
  · subst hg
    constructor
    · intro p hp hpt
      have h1 : fsSet lr.fs (target ++ ".tmp") none p = lr.fs p := by
        simp [fsSet, hpt]
      rw [h1, hfs1 p hpt]
      simp [fsSet, hpt]
    · refine Or.inr (Or.inl ?_)
      have h1 : fsSet lr.fs (target ++ ".tmp") none target = lr.fs target := by
        simp [fsSet, Ne.symm (temp_ne_target target)]
      rw [h1, hfs1 target (Ne.symm (temp_ne_target target))]
      simp [fsSet, Ne.symm (temp_ne_target target)]
  · subst hg
    constructor
    · intro p hp hpt
      have h1 : fsSet (fsSet lr.fs (target ++ ".tmp") none) target (some v) p =
          lr.fs p := by simp [fsSet, hp, hpt]
      rw [h1, hfs1 p hpt]
      simp [fsSet, hpt]
    · exact Or.inr (Or.inr ⟨v, by simp [fsSet], hhash⟩)

/-- C3: every filesystem state reached during a download touches only the
target and staging paths, and the target entry is at all times absent, the
pre-call artifact, or contents whose digest matches the expected checksum. -/
theorem download_target_never_partial (w : DLWorld) (target : String)
    (expected : Nat) (checksum : String) (fs : FS) (g : FS)
    (hg : g ∈ fs :: (download_model w target expected checksum fs).trace) :
    (∀ p, p ≠ target → p ≠ target ++ ".tmp" → g p = fs p) ∧
    (g target = none ∨ g target = fs target ∨
      ∃ v, g target = some v ∧ rustToLower (w.hash v) = rustToLower checksum) := by
  rw [List.mem_cons] at hg
  rcases hg with hg | hg
  · subst hg
    exact ⟨fun p _ _ => rfl, Or.inr (Or.inl rfl)⟩
  rcases download_model_cases w target expected checksum fs with
    ⟨e, hm, hEq⟩ | ⟨e, hc, hEq⟩ | ⟨resp, hc, hs, hEq⟩ | ⟨resp, hc, hs, hcr, hEq⟩ |
    ⟨resp, hc, hs, hcr, hEq⟩
  · rw [hEq] at hg
    exact absurd hg (List.not_mem_nil g)
  · simp only [hEq, List.mem_singleton] at hg
    subst hg
    exact ⟨fun p hp hpt => by simp [fsSet, hp], Or.inl (by simp [fsSet])⟩
  · rw [hEq] at hg
    exact absurd hg (List.not_mem_nil g)
  · rw [hEq] at hg
    exact absurd hg (List.not_mem_nil g)
  · rw [hEq] at hg
    exact staged_trace_inv w target expected checksum fs _ g
      (fun p hp => dlLoop_fs_ne_temp w expected (target ++ ".tmp") resp.chunks 0
        (fsSet fs (target ++ ".tmp") (some [])) 0 _ _ p hp)
      (fun g2 hg2 => dlLoop_trace_mem w expected (target ++ ".tmp") resp.chunks 0
        (fsSet fs (target ++ ".tmp") (some [])) 0 _ _ g2 hg2)
      hg

/-- Witness for C3: the pre-call state of a concrete successful download. -/
theorem download_target_never_partial_witness :
    (∀ p, p ≠ "/m/base.bin" → p ≠ "/m/base.bin" ++ ".tmp" → emptyFS p = emptyFS p) ∧
    (emptyFS "/m/base.bin" = none ∨ emptyFS "/m/base.bin" = emptyFS "/m/base.bin" ∨
      ∃ v, emptyFS "/m/base.bin" = some v ∧
        rustToLower (okWorld.hash v) = rustToLower "AA") :=
  download_target_never_partial okWorld "/m/base.bin" 2 "AA" emptyFS emptyFS
    (List.mem_cons_self _ _)

/-- C4: every downloading snapshot carries the percentage recomputed from its
own byte count, with a zero expected size mapped to zero. -/
theorem download_progress_percentage (w : DLWorld) (target : String)
    (expected : Nat) (checksum : String) (fs : FS) (q : DownloadProgress)
    (hq : q ∈ (download_model w target expected checksum fs).events)
    (hst : q.status = "downloading") :
    q.percentage =
      if expected > 0 then (q.bytes_downloaded : ℚ) / (expected : ℚ) * 100 else 0 := by
  rcases download_model_cases w target expected checksum fs with
    ⟨e, hm, hEq⟩ | ⟨e, hc, hEq⟩ | ⟨resp, hc, hs, hEq⟩ | ⟨resp, hc, hs, hcr, hEq⟩ |
    ⟨resp, hc, hs, hcr, hEq⟩
  · rw [hEq] at hq
    exact absurd hq (List.not_mem_nil q)
  · simp only [hEq, List.mem_singleton] at hq
    subst hq
    simp at hst
  · simp only [hEq, List.mem_singleton] at hq
    subst hq
    simp at hst
  · simp only [hEq, List.mem_singleton] at hq
    subst hq
    simp at hst
  · rw [hEq] at hq
    rcases finishDownload_events _ _ _ _ _ _ q hq with hq | hq | hq
    · rcases dlLoop_events_mem w expected (target ++ ".tmp") resp.chunks 0
        (fsSet fs (target ++ ".tmp") (some [])) 0 _ _ q hq with hq | ⟨d2, hq⟩
      · rw [List.mem_cons, List.mem_singleton] at hq
        rcases hq with hq | hq
        · subst hq
          simp at hst
        · subst hq
          by_cases he : expected > 0
          · rw [if_pos he]; simp
          · rw [if_neg he]
      · subst hq
        rfl
    · rw [hst] at hq
      exact absurd hq (by decide)
    · rw [hst] at hq
      exact absurd hq (by decide)

/-- Witness for C4 on a concrete per-chunk snapshot of a run whose expected
size is zero. -/
theorem download_progress_percentage_witness :
    (⟨2, 0, 0, "downloading"⟩ : DownloadProgress).percentage =
      if 0 > 0 then
        ((⟨2, 0, 0, "downloading"⟩ : DownloadProgress).bytes_downloaded : ℚ) /
          ((0 : Nat) : ℚ) * 100
      else 0 :=
  download_progress_percentage okWorld "/m/base.bin" 0 "AA" emptyFS
    ⟨2, 0, 0, "downloading"⟩ (by decide) rfl

end VoiceRecorder
